import Mathlib

/-!
Shallow embedding of `src/utils/SyncCommands.ts` (class `CommandSyncer`),
the command-registry reconciliation engine of the repository.

The remote registry (discord.js `ApplicationCommandManager` /
`GuildApplicationCommandManager`) and the guild resolver are external
collaborators; they are modelled as an explicit environment `Env` that
decides which guilds resolve and which create/edit calls the remote
rejects, together with a state `SyncState` holding the registries'
contents and a trace of every remote call issued.  Definition loading
(`getFiles` + dynamic import) is modelled as the input list of
`(path, module)` pairs handed to `sync`.
-/

/- Numeric values of the `CommandType` bit-flag enum of `@sern/handler`
(the `Both` flag is the union of the `Text` and `Slash` bits).  Only the
distinctness and bit patterns of these values matter to the proofs. -/
namespace CommandType

def Text : Nat := 1

def Slash : Nat := 2

def Both : Nat := 3

def CtxMsg : Nat := 4

def CtxUser : Nat := 8

end CommandType

/- Numeric values of `ApplicationCommandType` from `discord-api-types`. -/
namespace ApplicationCommandType

def ChatInput : Nat := 1

def User : Nat := 2

def Message : Nat := 3

end ApplicationCommandType

/-- One command argument (`APIApplicationCommandOption` extended by sern
with autocomplete data).  `command` is the in-process autocomplete
handler reference (an opaque value here); in the source's types it is
present exactly on options declared with `autocomplete: true`. -/
structure OptionData where
  name : String
  type : Nat
  required : Bool
  autocomplete : Bool
  command : Option Nat
deriving Repr, DecidableEq

/-- A loaded command definition (`CommandModule` of `@sern/handler`):
the default export of one file under `dist/src/commands`.  Absent
optional fields are `none`. -/
structure CommandModule where
  type : Nat
  name : Option String := none
  description : Option String := none
  options : Option (List OptionData) := none
deriving Repr, DecidableEq

/-- A remote registry entry (`ApplicationCommand` of discord.js):
`id` is the opaque remote identifier. -/
structure ApplicationCommand where
  id : Nat
  name : String
  description : String
  type : Nat
  options : Option (List OptionData)
deriving Repr, DecidableEq

/-- The payload of a create or edit call (`ApplicationCommandData`).
A `none` field models a JS `undefined` field, which the REST layer
omits from the request. -/
structure CommandData where
  name : Option String
  description : Option String
  type : Nat
  options : Option (List OptionData)
deriving Repr, DecidableEq

/-- One remote call issued by the syncer, recorded in order. -/
inductive RemoteCall where
  | fetchGlobal : RemoteCall
  | fetchGuild (guildId : String) : RemoteCall
  | createGlobal (data : CommandData) : RemoteCall
  | createGuild (guildId : String) (data : CommandData) : RemoteCall
  | edit (commandId : Nat) (data : CommandData) : RemoteCall
deriving Repr, DecidableEq

/-- Per-definition outcome (the spec's conceptual `SyncResult`). -/
inductive SyncOutcome where
  | created : SyncOutcome
  | updated : SyncOutcome
deriving Repr, DecidableEq

/-- Behaviour of the external collaborators: which guild ids resolve
(`client.guilds.fetch`), and which create/edit calls the remote rejects
(keyed by the command name being created resp. the remote id being
edited). -/
structure Env where
  guildExists : String → Bool
  createRejects : String → Bool
  editRejects : Nat → Bool

/-- The observable state of one run: the global registry, the per-guild
registries (association list by guild id), the remote's id counter,
the trace of issued calls, and the per-definition outcomes. -/
structure SyncState where
  global : List ApplicationCommand
  guildRegs : List (String × List ApplicationCommand)
  nextId : Nat
  calls : List RemoteCall
  outcomes : List (String × SyncOutcome)
deriving Repr, DecidableEq

def initState : SyncState :=
  { global := [], guildRegs := [], nextId := 0, calls := [], outcomes := [] }

/-- Split a character list at every occurrence of a separator (the
list-of-segments view of `String.split`); always returns at least one
segment. -/
def splitOnChar (c : Char) : List Char → List (List Char)
  | [] => [[]]
  | a :: rest =>
    let r := splitOnChar c rest
    if a == c then [] :: r
    else
      match r with
      | [] => [[a]]
      | h :: t => (a :: h) :: t

/-- The `basename` imported from discord.js (lines 15, 189): the final
path segment, with any query suffix after `?` stripped
(`parse(path).base.split('?')[0]`). -/
def basename (p : String) : String :=
  String.mk (((splitOnChar '/' p.toList).getLastD p.toList).takeWhile (fun c => c != '?'))

/-- JS `s.slice(0, -3)`: the string without its last three characters
(empty when the string has at most three). -/
def jsSliceDropLast3 (s : String) : String :=
  String.mk (s.toList.take (s.length - 3))

/-- Line 189: `module.name ?? basename(path).slice(0, -3)`. -/
def resolveName (m : CommandModule) (path : String) : String :=
  m.name.getD (jsSliceDropLast3 (basename path))

/-- Lines 52-59: `publishable`.  JS `&`, `|`, `~` act on 32-bit
integers; the constant mask is small, so only `module.type` needs the
32-bit truncation, written here as `% 2 ^ 32`.  `~CommandType.Text` on
a 32-bit value is the xor with `2 ^ 32 - 1`. -/
def publishable (m : CommandModule) : Bool :=
  let publishableTypes :=
    CommandType.Both ||| CommandType.CtxUser ||| CommandType.CtxMsg ||| CommandType.Slash
  (publishableTypes &&& ((2 ^ 32 - 1) ^^^ CommandType.Text) &&& (m.type % 2 ^ 32)) != 0

/-- Lines 169-177: `optionsTransformer`.  For Slash/Both modules it maps
`module.options?.map(...) || []` — each option keeps every field except
that `command` is dropped when `autocomplete` is truthy (the rest/spread
`(({ command, ...el }) => el)(el)`); dropping a field is modelled as
setting it to `none`.  For the context-menu kinds it returns
`undefined`, modelled as `none`. -/
def optionsTransformer (m : CommandModule) : Option (List OptionData) :=
  if m.type == CommandType.Slash || m.type == CommandType.Both then
    some ((m.options.map (fun opts =>
      opts.map (fun el =>
        if el.autocomplete then { el with command := none } else el))).getD [])
  else none

/-- The payload of `updateCommand`'s edit call (lines 155-162): the
module's own (possibly absent) `name` and `description`, the constant
`ChatInput` type, and the transformed options (`module ?? []` is just
`module`, the argument being non-null). -/
def updateCommandData (m : CommandModule) : CommandData :=
  { name := m.name
    description := m.description
    type := ApplicationCommandType.ChatInput
    options := optionsTransformer m }

/-- The payload of `registerGlobalCommand`'s create call (lines
140-145): the resolved name, the description or the `".."` placeholder,
the constant `ChatInput` type, and the transformed options. -/
def registerGlobalCommandData (resolvedName : String) (m : CommandModule) : CommandData :=
  { name := some resolvedName
    description := some (m.description.getD "..")
    type := ApplicationCommandType.ChatInput
    options := optionsTransformer m }

/-- The payload of `registerGuildCommand`'s create call (lines 122-128):
field for field the same computation as the global create (`module ?? []`
is `module`). -/
def registerGuildCommandData (resolvedName : String) (m : CommandModule) : CommandData :=
  { name := some resolvedName
    description := some (m.description.getD "..")
    type := ApplicationCommandType.ChatInput
    options := optionsTransformer m }

/-- Effect of a successful remote edit on one entry: fields present in
the payload overwrite, absent (`undefined`) fields leave the entry
unchanged. -/
def editEntry (data : CommandData) (e : ApplicationCommand) : ApplicationCommand :=
  { e with
    name := data.name.getD e.name
    description := data.description.getD e.description
    type := data.type
    options := match data.options with | some o => some o | none => e.options }

/-- Apply an edit to whichever entries of a registry carry the edited
remote id. -/
def editById (cid : Nat) (data : CommandData) (l : List ApplicationCommand) :
    List ApplicationCommand :=
  l.map (fun e => if e.id == cid then editEntry data e else e)

/-- The entry the remote stores for a successful create call. -/
def createdEntry (cid : Nat) (data : CommandData) : ApplicationCommand :=
  { id := cid
    name := data.name.getD ""
    description := data.description.getD ""
    type := data.type
    options := data.options }

/-- The commands of one guild's registry (empty when the guild has
none yet). -/
def guildCommands (s : SyncState) (gid : String) : List ApplicationCommand :=
  ((s.guildRegs.find? (fun gr => gr.1 == gid)).map Prod.snd).getD []

/-- Append a freshly created entry to one guild's registry. -/
def appendGuildEntry (regs : List (String × List ApplicationCommand)) (gid : String)
    (e : ApplicationCommand) : List (String × List ApplicationCommand) :=
  match regs with
  | [] => [(gid, [e])]
  | (g, l) :: rest =>
    if g == gid then (g, l ++ [e]) :: rest else (g, l) :: appendGuildEntry rest gid e

/-- Lines 150-165: `updateCommand`.  The edit call is issued (recorded)
unconditionally; when the remote rejects it, the rejection propagates
(`some` error) and no registry changes; otherwise every registry entry
carrying the remote id is overwritten and the outcome is `updated`. -/
def updateCommand (env : Env) (s : SyncState) (registered : ApplicationCommand)
    (m : CommandModule) (resolvedName : String) : SyncState × Option String :=
  let data := updateCommandData m
  let s1 := { s with calls := s.calls ++ [RemoteCall.edit registered.id data] }
  if env.editRejects registered.id then (s1, some "edit rejected")
  else
    ({ s1 with
        global := editById registered.id data s1.global
        guildRegs := s1.guildRegs.map (fun gr => (gr.1, editById registered.id data gr.2))
        outcomes := s1.outcomes ++ [(resolvedName, SyncOutcome.updated)] }, none)

/-- Lines 136-148: `registerGlobalCommand`.  The create call is issued
(recorded) unconditionally; a rejection propagates; on success the
remote appends the entry under a fresh id. -/
def registerGlobalCommand (env : Env) (s : SyncState) (resolvedName : String)
    (m : CommandModule) : SyncState × Option String :=
  let data := registerGlobalCommandData resolvedName m
  let s1 := { s with calls := s.calls ++ [RemoteCall.createGlobal data] }
  if env.createRejects resolvedName then (s1, some "create rejected")
  else
    ({ s1 with
        global := s1.global ++ [createdEntry s1.nextId data]
        nextId := s1.nextId + 1
        outcomes := s1.outcomes ++ [(resolvedName, SyncOutcome.created)] }, none)

/-- Lines 117-134: `registerGuildCommand`, against one guild's
registry. -/
def registerGuildCommand (env : Env) (s : SyncState) (gid : String) (resolvedName : String)
    (m : CommandModule) : SyncState × Option String :=
  let data := registerGuildCommandData resolvedName m
  let s1 := { s with calls := s.calls ++ [RemoteCall.createGuild gid data] }
  if env.createRejects resolvedName then (s1, some "create rejected")
  else
    ({ s1 with
        guildRegs := appendGuildEntry s1.guildRegs gid (createdEntry s1.nextId data)
        nextId := s1.nextId + 1
        outcomes := s1.outcomes ++ [(resolvedName, SyncOutcome.created)] }, none)

/-- Lines 70-87: `handleGlobalCommand`.  Fetches the global registry
(one `fetchGlobal` call, issued on every invocation, i.e. once per
definition), finds by name, and updates or registers. -/
def handleGlobalCommand (env : Env) (s : SyncState) (resolvedName : String)
    (m : CommandModule) : SyncState × Option String :=
  let s1 := { s with calls := s.calls ++ [RemoteCall.fetchGlobal] }
  match s1.global.find? (fun e => e.name == resolvedName) with
  | some registered => updateCommand env s1 registered m resolvedName
  | none => registerGlobalCommand env s1 resolvedName m

/-- Lines 89-115: `handleScopedGuildsCommand`.  Iterates the configured
guild ids in order; a guild that does not resolve
(`client.guilds.fetch(...).catch(() => null)` yielding null) makes the
whole handler throw (`some` error), so later guild ids are not
reached.  For a resolved guild: fetch that guild's registry, find by
name, update or register, and continue with the remaining ids. -/
def handleScopedGuildsCommand (env : Env) (guildIds : List String) (s : SyncState)
    (resolvedName : String) (m : CommandModule) : SyncState × Option String :=
  match guildIds with
  | [] => (s, none)
  | gid :: rest =>
    if env.guildExists gid then
      let s1 := { s with calls := s.calls ++ [RemoteCall.fetchGuild gid] }
      match (guildCommands s1 gid).find? (fun e => e.name == resolvedName) with
      | some registered =>
        match updateCommand env s1 registered m resolvedName with
        | (s2, none) => handleScopedGuildsCommand env rest s2 resolvedName m
        | (s2, some err) => (s2, some err)
      | none =>
        match registerGuildCommand env s1 gid resolvedName m with
        | (s2, none) => handleScopedGuildsCommand env rest s2 resolvedName m
        | (s2, some err) => (s2, some err)
    else (s, some ("Found no Guild with id " ++ gid ++ "!"))

/-- Lines 62-68: `handleCommand` — scoped when the configured guild
list is nonempty (JS truthiness of `this.scopedGuilds.length`),
global otherwise. -/
def handleCommand (env : Env) (scopedGuilds : List String) (s : SyncState)
    (m : CommandModule) (resolvedName : String) : SyncState × Option String :=
  if scopedGuilds.length != 0 then
    handleScopedGuildsCommand env scopedGuilds s resolvedName m
  else handleGlobalCommand env s resolvedName m

/-- Lines 180-193: `sync`.  Iterates the discovered `(path, module)`
pairs in order; non-publishable modules are skipped; the first error
thrown by a handler aborts the remaining iterations (there is no
try/catch inside the loop). -/
def sync (env : Env) (scopedGuilds : List String)
    (files : List (String × CommandModule)) (s : SyncState) : SyncState × Option String :=
  match files with
  | [] => (s, none)
  | (path, m) :: rest =>
    if publishable m then
      match handleCommand env scopedGuilds s m (resolveName m path) with
      | (s1, none) => sync env scopedGuilds rest s1
      | (s1, some err) => (s1, some err)
    else sync env scopedGuilds rest s

/-- A log line emitted by the constructor's promise chain. -/
inductive LogEntry where
  | errorLine (message : String) : LogEntry
  | infoLine (message : String) : LogEntry
deriving Repr, DecidableEq

def isErrorLog : LogEntry → Bool
  | LogEntry.errorLine _ => true
  | LogEntry.infoLine _ => false

/-- Lines 39-49: the `CommandSyncer` constructor runs
`sync().catch(e => logger.error(...)).then(() => logger.info(...))`:
a rejection is caught and logged as one error line (the thrown errors
here are never null, so `e ?? "Something went wrong with syncing"` is
`e`), and the info line is chained after the catch, hence emitted in
either case.  The function is total: no exception escapes. -/
def constructCommandSyncer (env : Env) (scopedGuilds : List String)
    (files : List (String × CommandModule)) : SyncState × List LogEntry :=
  match sync env scopedGuilds files initState with
  | (s, none) => (s, [LogEntry.infoLine "Commands synced successfully"])
  | (s, some err) =>
    (s, [LogEntry.errorLine err, LogEntry.infoLine "Commands synced successfully"])

/-- The names held by a registry, in order. -/
def names (l : List ApplicationCommand) : List String := l.map (fun e => e.name)

/-- The remote ids held by a registry, in order. -/
def ids (l : List ApplicationCommand) : List Nat := l.map (fun e => e.id)

/-- Remote-id sanity of a state: the global registry's ids are distinct
and below the remote's id counter.  Holds of `initState` and is
preserved by the syncer's calls. -/
def IdsOk (s : SyncState) : Prop :=
  (ids s.global).Nodup ∧ ∀ i ∈ ids s.global, i < s.nextId

/-- Number of global fetch calls in a trace. -/
def isFetchGlobal : RemoteCall → Bool
  | RemoteCall.fetchGlobal => true
  | _ => false

def globalFetchCount (s : SyncState) : Nat :=
  (s.calls.filter isFetchGlobal).length

/-- Modelled from the spec (§4.4 step 3 and §8 name-resolution
fallback), for comparison with the source's `resolveName`: the source
file's base name with its file extension (the final dot and everything
after it) removed. -/
def specStripExtension (s : String) : String :=
  match (splitOnChar '.' s.toList).dropLast with
  | [] => s
  | parts => String.mk (List.intercalate ['.'] parts)

/-- An environment in which every guild resolves and the remote rejects
nothing. -/
def envNoFail : Env :=
  { guildExists := fun _ => true
    createRejects := fun _ => false
    editRejects := fun _ => false }

/-- An environment that rejects the creation of a command named `a`. -/
def envCreateRejectsA : Env := { envNoFail with createRejects := fun n => n == "a" }

/-- An environment in which only guild `g2` resolves. -/
def envOnlyG2 : Env := { envNoFail with guildExists := fun g => g == "g2" }

/-- A Slash module with one autocomplete option (carrying a handler)
and one plain option. -/
def slashModuleWithOpts : CommandModule :=
  { type := CommandType.Slash
    options := some
      [{ name := "q", type := 3, required := true, autocomplete := true, command := some 7 },
       { name := "r", type := 4, required := false, autocomplete := false, command := none }] }

/-- Two publishable slash definitions discovered as `a.js` and `b.js`. -/
def filesAB : List (String × CommandModule) :=
  [("dist/src/commands/a.js", { type := CommandType.Slash }),
   ("dist/src/commands/b.js", { type := CommandType.Slash })]

/-- One publishable slash definition discovered as `ping.js`. -/
def filesPing : List (String × CommandModule) :=
  [("dist/src/commands/ping.js", { type := CommandType.Slash })]

/-! ## Helper lemmas about the reconciliation branches -/

/-- When the resolved name matches a remote entry and the remote accepts
the edit, the global handler issues exactly one fetch followed by one
edit of the matched entry's id, with the module-derived payload. -/
theorem handleGlobalCommand_update_eq (env : Env) (s : SyncState) (r : String)
    (m : CommandModule) (reg : ApplicationCommand)
    (hfind : s.global.find? (fun e => e.name == r) = some reg)
    (he : env.editRejects reg.id = false) :
    handleGlobalCommand env s r m =
      ({ s with
          calls := s.calls ++
            [RemoteCall.fetchGlobal, RemoteCall.edit reg.id (updateCommandData m)]
          global := editById reg.id (updateCommandData m) s.global
          guildRegs := s.guildRegs.map
            (fun gr => (gr.1, editById reg.id (updateCommandData m) gr.2))
          outcomes := s.outcomes ++ [(r, SyncOutcome.updated)] }, none) := by
  simp [handleGlobalCommand, updateCommand, hfind, he]

/-- When no remote entry matches the resolved name and the remote
accepts the create, the global handler issues exactly one fetch
followed by one create carrying the create payload, and the remote
appends the created entry under a fresh id. -/
theorem handleGlobalCommand_create_eq (env : Env) (s : SyncState) (r : String)
    (m : CommandModule)
    (hfind : s.global.find? (fun e => e.name == r) = none)
    (hc : env.createRejects r = false) :
    handleGlobalCommand env s r m =
      ({ s with
          calls := s.calls ++
            [RemoteCall.fetchGlobal, RemoteCall.createGlobal (registerGlobalCommandData r m)]
          global := s.global ++ [createdEntry s.nextId (registerGlobalCommandData r m)]
          nextId := s.nextId + 1
          outcomes := s.outcomes ++ [(r, SyncOutcome.created)] }, none) := by
  simp [handleGlobalCommand, registerGlobalCommand, hfind, hc]

/-- The slice helper undoes an appended three-character `.js` suffix. -/
theorem jsSliceDropLast3_js (stem : String) : jsSliceDropLast3 (stem ++ ".js") = stem := by
  unfold jsSliceDropLast3
  have hdata : (stem ++ ".js").toList = stem.toList ++ ['.', 'j', 's'] := by
    cases stem with
    | mk l => rfl
  have hlen : (stem ++ ".js").length = stem.length + 3 := by
    simp [String.length_append]
    rfl
  rw [hdata, hlen]
  have hl : stem.length = stem.toList.length := by
    cases stem with
    | mk l => rfl
  rw [Nat.add_sub_cancel, hl, List.take_left]
  cases stem with
  | mk l => rfl

/-! ## Claim theorems -/

/-- C10: constructing a `CommandSyncer` never propagates an exception
from the sync pass (`constructCommandSyncer` is total); a rejection of
the pass is emitted as exactly one error log entry, and the final info
line `"Commands synced successfully"` is emitted unconditionally — even
when the pass failed — because the success continuation is chained
after the error handler. -/
theorem constructor_always_logs_info (env : Env) (g : List String)
    (files : List (String × CommandModule)) :
    (constructCommandSyncer env g files).2.getLast?
      = some (LogEntry.infoLine "Commands synced successfully") ∧
    ((constructCommandSyncer env g files).2.filter isErrorLog).length
      = (if (sync env g files initState).2.isSome then 1 else 0) := by
  unfold constructCommandSyncer
  rcases h : sync env g files initState with ⟨s, e⟩
  cases e <;> simp [isErrorLog]

/-- C2 counterexample: with two publishable definitions `a` and `b` in
global scope and a remote that rejects the create of `a`, the whole
pass aborts after the rejected create: the trace holds no fetch and no
create for `b`, refuting the claim that the remaining definitions are
still processed. -/
theorem remote_failure_aborts_pass_cx :
    sync envCreateRejectsA []
      [("dist/src/commands/a.js", { type := CommandType.Slash }),
       ("dist/src/commands/b.js", { type := CommandType.Slash })] initState
      = ({ initState with
            calls := [RemoteCall.fetchGlobal,
              RemoteCall.createGlobal
                { name := some "a", description := some "..",
                  type := ApplicationCommandType.ChatInput, options := some [] }] },
         some "create rejected") := by decide

/-- C2 amended: a remote failure (rejection) of the create or edit call
for one definition is not isolated: the handler's error propagates out
of `sync`, so the remaining definitions — whatever they are — are not
processed, and the error surfaces as the rejection of the whole pass. -/
theorem sync_aborts_on_handler_failure (env : Env) (g : List String) (s s1 : SyncState)
    (path : String) (m : CommandModule) (rest : List (String × CommandModule)) (err : String)
    (hpub : publishable m = true)
    (hfail : handleCommand env g s m (resolveName m path) = (s1, some err)) :
    sync env g ((path, m) :: rest) s = (s1, some err) := by
  simp [sync, hpub, hfail]

theorem sync_aborts_on_handler_failure_witness :
    publishable { type := CommandType.Slash } = true ∧
    handleCommand envCreateRejectsA [] initState { type := CommandType.Slash }
        (resolveName { type := CommandType.Slash } "dist/src/commands/a.js")
      = ({ initState with
            calls := [RemoteCall.fetchGlobal,
              RemoteCall.createGlobal
                { name := some "a", description := some "..",
                  type := ApplicationCommandType.ChatInput, options := some [] }] },
         some "create rejected") ∧
    sync envCreateRejectsA []
      [("dist/src/commands/a.js", { type := CommandType.Slash }),
       ("dist/src/commands/x.js", { type := CommandType.Slash })] initState
      = ({ initState with
            calls := [RemoteCall.fetchGlobal,
              RemoteCall.createGlobal
                { name := some "a", description := some "..",
                  type := ApplicationCommandType.ChatInput, options := some [] }] },
         some "create rejected") :=
  ⟨by decide, by decide, sync_aborts_on_handler_failure envCreateRejectsA [] initState _
    "dist/src/commands/a.js" { type := CommandType.Slash }
    [("dist/src/commands/x.js", { type := CommandType.Slash })] "create rejected" (by decide)
    (by decide)⟩

/-- C4: evaluation of the create path at a context-menu definition.
The spec requires the create call's type to be mapped from the
definition's kind (message for ContextMenuMessage), but the source
hardcodes `ApplicationCommandType.ChatInput` in both create paths
(lines 125 and 143): the context-menu module below is sent to the
remote as a chat-input command.  The name, placeholder description and
transformed (absent) options of the same call are as the claim
states. -/
theorem ctx_menu_create_sends_chat_input_type :
    (sync envNoFail [] [("dist/src/commands/report.js",
        { type := CommandType.CtxMsg, name := some "report" })] initState).1.calls
      = [RemoteCall.fetchGlobal,
         RemoteCall.createGlobal
           { name := some "report", description := some "..",
             type := ApplicationCommandType.ChatInput, options := none }] ∧
    registerGuildCommandData "report" { type := CommandType.CtxMsg, name := some "report" }
      = { name := some "report", description := some "..",
          type := ApplicationCommandType.ChatInput, options := none } ∧
    ApplicationCommandType.ChatInput ≠ ApplicationCommandType.Message ∧
    ApplicationCommandType.ChatInput ≠ ApplicationCommandType.User := by
  refine ⟨by decide, by decide, by decide, by decide⟩

/-- C5 counterexample: a matched definition with no `description` is
edited with the `description` field absent (`undefined`), not with the
placeholder `".."` a create would send, and the claim "an edit call
... sending the same fields a create would send" is false: against a
remote entry named `ban`, the edit payload differs from the create
payload of the same definition. -/
theorem edit_fields_differ_from_create_cx :
    (sync envNoFail [] [("dist/src/commands/ban.js", { type := CommandType.Slash })]
        { initState with
            global := [{ id := 0, name := "ban", description := "old",
                         type := ApplicationCommandType.ChatInput, options := some [] }]
            nextId := 1 }).1.calls
      = [RemoteCall.fetchGlobal,
         RemoteCall.edit 0
           { name := none, description := none,
             type := ApplicationCommandType.ChatInput, options := some [] }] ∧
    updateCommandData { type := CommandType.Slash }
      ≠ registerGlobalCommandData "ban" { type := CommandType.Slash } := by
  refine ⟨by decide, by decide⟩

/-- C5 amended: for every matched definition an edit call is issued
against the matched entry's remote id, unconditionally and with no
field-by-field diff (the hypotheses mention neither the entry's nor the
module's field contents), sending the constant chat-input type and the
transformed options as a create would — but the `name` sent is the
module's own optional `name` field (not the resolved name) and the
`description` is the module's raw optional description, with no `".."`
placeholder: both fields are simply absent when the module omits
them. -/
theorem update_resubmits_module_fields (env : Env) (s : SyncState) (r : String)
    (m : CommandModule) (reg : ApplicationCommand)
    (hfind : s.global.find? (fun e => e.name == r) = some reg)
    (he : env.editRejects reg.id = false) :
    (handleGlobalCommand env s r m).2 = none ∧
    (handleGlobalCommand env s r m).1.calls
      = s.calls ++ [RemoteCall.fetchGlobal, RemoteCall.edit reg.id (updateCommandData m)] ∧
    updateCommandData m
      = { name := m.name, description := m.description,
          type := ApplicationCommandType.ChatInput, options := optionsTransformer m } := by
  rw [handleGlobalCommand_update_eq env s r m reg hfind he]
  exact ⟨rfl, rfl, rfl⟩

theorem update_resubmits_module_fields_witness :
    (({ initState with
          global := [{ id := 0, name := "ban", description := "old",
                       type := ApplicationCommandType.ChatInput, options := some [] }]
          nextId := 1 } : SyncState).global.find? (fun e => e.name == "ban")
        = some { id := 0, name := "ban", description := "old",
                 type := ApplicationCommandType.ChatInput, options := some [] }) ∧
    envNoFail.editRejects 0 = false ∧
    ((handleGlobalCommand envNoFail
        { initState with
            global := [{ id := 0, name := "ban", description := "old",
                         type := ApplicationCommandType.ChatInput, options := some [] }]
            nextId := 1 } "ban" { type := CommandType.Slash }).2 = none ∧
      (handleGlobalCommand envNoFail
        { initState with
            global := [{ id := 0, name := "ban", description := "old",
                         type := ApplicationCommandType.ChatInput, options := some [] }]
            nextId := 1 } "ban" { type := CommandType.Slash }).1.calls
        = ({ initState with
              global := [{ id := 0, name := "ban", description := "old",
                           type := ApplicationCommandType.ChatInput, options := some [] }]
              nextId := 1 } : SyncState).calls ++
            [RemoteCall.fetchGlobal,
             RemoteCall.edit 0 (updateCommandData { type := CommandType.Slash })] ∧
      updateCommandData { type := CommandType.Slash }
        = { name := none, description := none,
            type := ApplicationCommandType.ChatInput,
            options := optionsTransformer { type := CommandType.Slash } }) :=
  ⟨by decide, rfl,
    update_resubmits_module_fields envNoFail
      { initState with
          global := [{ id := 0, name := "ban", description := "old",
                       type := ApplicationCommandType.ChatInput, options := some [] }]
          nextId := 1 }
      "ban" { type := CommandType.Slash }
      { id := 0, name := "ban", description := "old",
        type := ApplicationCommandType.ChatInput, options := some [] }
      (by decide) rfl⟩

/-- C6: for Slash/Both definitions the option transformer mirrors
`module.options` in the original order with every entry's internal-only
autocomplete-handler field (`command`) removed and all other fields
unchanged; for the context-menu kinds it returns absent.  The
hypothesis is the source's typing invariant (`SernAutocompleteData`):
an option carries a handler only when it is declared with
`autocomplete: true`. -/
theorem optionsTransformer_strips_handler (m : CommandModule)
    (hinv : ∀ el ∈ m.options.getD [], el.command.isSome → el.autocomplete = true) :
    ((m.type = CommandType.Slash ∨ m.type = CommandType.Both) →
      optionsTransformer m
        = some ((m.options.getD []).map (fun el => { el with command := none }))) ∧
    ((m.type = CommandType.CtxUser ∨ m.type = CommandType.CtxMsg) →
      optionsTransformer m = none) := by
  constructor
  · intro hk
    have hcond : (m.type == CommandType.Slash || m.type == CommandType.Both) = true := by
      rcases hk with h | h <;> simp [h]
    unfold optionsTransformer
    rw [hcond]
    simp only [if_true]
    cases hopts : m.options with
    | none => simp
    | some opts =>
      simp only [hopts, Option.map_some, Option.getD_some, Option.some.injEq]
      apply List.map_congr_left
      intro el hel
      have hinv' := hinv el (by simp [hopts, hel])
      cases hac : el.autocomplete with
      | true => simp
      | false =>
        have hcmd : el.command = none := by
          cases hc : el.command with
          | none => rfl
          | some v => exact absurd (hinv' (by simp [hc])) (by simp [hac])
        simp only [Bool.false_eq_true, if_false]
        cases el
        simp_all
  · intro hk
    have hcond : (m.type == CommandType.Slash || m.type == CommandType.Both) = false := by
      rcases hk with h | h <;> simp [h, CommandType.CtxUser, CommandType.CtxMsg,
        CommandType.Slash, CommandType.Both]
    unfold optionsTransformer
    rw [hcond]
    simp

theorem optionsTransformer_strips_handler_witness :
    (∀ el ∈ slashModuleWithOpts.options.getD [],
      el.command.isSome → el.autocomplete = true) ∧
    optionsTransformer slashModuleWithOpts
      = some
        [{ name := "q", type := 3, required := true, autocomplete := true, command := none },
         { name := "r", type := 4, required := false, autocomplete := false, command := none }] :=
  ⟨by decide,
    (optionsTransformer_strips_handler slashModuleWithOpts (by decide)).1 (Or.inl rfl)⟩

/-- C7 counterexample: the classifier is an open bit mask, not a
closed-world membership test.  The value 6 is none of the recognized
kind values of the source's enum, yet `publishable` accepts it because
its bit pattern overlaps the mask, refuting "returns false for every
unrecognized/future kind value". -/
theorem publishable_open_bitmask_cx :
    publishable { type := 6 } = true ∧
    6 ≠ CommandType.Text ∧ 6 ≠ CommandType.Slash ∧ 6 ≠ CommandType.Both ∧
    6 ≠ CommandType.CtxUser ∧ 6 ≠ CommandType.CtxMsg := by
  refine ⟨by decide, by decide, by decide, by decide, by decide, by decide⟩

/-- C7 amended: the classifier is a pure predicate over the kind bits:
on the spec's recognized kinds it returns true exactly for Slash, Both,
ContextMenuUser and ContextMenuMessage and false for TextOnly, and no
remote work is done for a definition classified false (`sync` leaves
the state untouched and issues no call for it); but an unrecognized
kind value whose bit pattern overlaps the publishable mask is also
classified true (open bitmask, not closed-world). -/
theorem publishable_kind_classification :
    (∀ m : CommandModule,
      m.type = CommandType.Slash ∨ m.type = CommandType.Both ∨
        m.type = CommandType.CtxUser ∨ m.type = CommandType.CtxMsg →
      publishable m = true) ∧
    (∀ m : CommandModule, m.type = CommandType.Text → publishable m = false) ∧
    (∀ (env : Env) (g : List String) (path : String) (m : CommandModule)
        (rest : List (String × CommandModule)) (s : SyncState),
      publishable m = false → sync env g ((path, m) :: rest) s = sync env g rest s) := by
  refine ⟨?_, ?_, ?_⟩
  · intro m h
    rcases h with h | h | h | h <;> (unfold publishable; rw [h]; decide)
  · intro m h
    unfold publishable
    rw [h]
    decide
  · intro env g path m rest s h
    simp [sync, h]

theorem publishable_kind_classification_witness :
    publishable { type := CommandType.Slash } = true ∧
    publishable { type := CommandType.Text } = false ∧
    sync envNoFail [] [("dist/src/commands/t.js", { type := CommandType.Text })] initState
      = sync envNoFail [] [] initState :=
  ⟨publishable_kind_classification.1 { type := CommandType.Slash } (Or.inl rfl),
   publishable_kind_classification.2.1 { type := CommandType.Text } rfl,
   publishable_kind_classification.2.2 envNoFail [] "dist/src/commands/t.js"
     { type := CommandType.Text } [] initState
     (publishable_kind_classification.2.1 { type := CommandType.Text } rfl)⟩

/-- C9 counterexample: name resolution is not "base name with its file
extension removed": the source slices off the final three characters
(`basename(path).slice(0, -3)`), so a definition loaded from
`ping.mjs` with no explicit name resolves to `"ping."`, while
extension stripping (the spec-worded `specStripExtension`) yields
`"ping"`. -/
theorem resolveName_extension_cx :
    resolveName { type := CommandType.Slash } "dist/src/commands/ping.mjs" = "ping." ∧
    specStripExtension (basename "dist/src/commands/ping.mjs") = "ping" ∧
    ("ping." : String) ≠ "ping" := by
  refine ⟨by decide, by decide, by decide⟩

/-- C9 amended: a definition without an explicit name resolves to the
source file's base name with its final three characters removed, which
coincides with removing the extension exactly for three-character
suffixes such as `.js`: for any file whose base name is `stem ++ ".js"`
the effective name is `stem`; e.g. a path ending in `ping.js` resolves
to `"ping"`. -/
theorem resolveName_basename_js (m : CommandModule) (path stem : String)
    (hname : m.name = none) (hbase : basename path = stem ++ ".js") :
    resolveName m path = stem := by
  unfold resolveName
  rw [hname, hbase, Option.getD_none, jsSliceDropLast3_js]

theorem resolveName_basename_js_witness :
    ({ type := CommandType.Slash } : CommandModule).name = none ∧
    basename "dist/src/commands/ping.js" = "ping" ++ ".js" ∧
    resolveName { type := CommandType.Slash } "dist/src/commands/ping.js" = "ping" :=
  ⟨rfl, by decide,
    resolveName_basename_js { type := CommandType.Slash } "dist/src/commands/ping.js" "ping"
      rfl (by decide)⟩

/-- C3 counterexample: with scoped partitions `["g1", "g2"]`, one
publishable definition and a remote where `g1` does not resolve but
`g2` does, the thrown `Found no Guild` error aborts the scoped loop
before any call: the final trace is empty, so the call against `g2` is
not attempted, refuting "a PartitionNotFound on g1 stops only that
target". -/
theorem partition_not_found_stops_pass_cx :
    sync envOnlyG2 ["g1", "g2"]
        [("dist/src/commands/ban.js", { type := CommandType.Slash })] initState
      = (initState, some "Found no Guild with id g1!") ∧
    (sync envOnlyG2 ["g1", "g2"]
        [("dist/src/commands/ban.js", { type := CommandType.Slash })] initState).1.calls
      = [] := by
  refine ⟨by decide, by decide⟩

/-- C3 amended: for a scoped sync over two distinct partition ids and
one publishable definition, when both partitions resolve exactly one
create-or-edit call is issued against each partition's registry (here,
on an empty remote, one create per partition); but a partition that
fails to resolve makes the handler throw, aborting the whole pass: when
`g1` does not resolve, no call — in particular none against `g2` — is
issued. -/
theorem scoped_fanout_and_abort (env : Env) (g1 g2 path : String) (m : CommandModule)
    (hpub : publishable m = true) (hne : g1 ≠ g2) :
    (env.guildExists g1 = true → env.guildExists g2 = true →
      env.createRejects (resolveName m path) = false →
      (sync env [g1, g2] [(path, m)] initState).2 = none ∧
      (sync env [g1, g2] [(path, m)] initState).1.calls
        = [RemoteCall.fetchGuild g1,
           RemoteCall.createGuild g1 (registerGuildCommandData (resolveName m path) m),
           RemoteCall.fetchGuild g2,
           RemoteCall.createGuild g2 (registerGuildCommandData (resolveName m path) m)]) ∧
    (env.guildExists g1 = false →
      sync env [g1, g2] [(path, m)] initState
        = (initState, some ("Found no Guild with id " ++ g1 ++ "!"))) := by
  have hb : (g1 == g2) = false := beq_eq_false_iff_ne.mpr hne
  constructor
  · intro h1 h2 hcr
    simp [sync, hpub, handleCommand, handleScopedGuildsCommand, h1, h2, hcr,
      guildCommands, registerGuildCommand, appendGuildEntry, initState, hb,
      List.find?]
  · intro h1
    simp [sync, hpub, handleCommand, handleScopedGuildsCommand, h1]

theorem scoped_fanout_and_abort_witness :
    publishable { type := CommandType.Slash } = true ∧
    ("g1" : String) ≠ "g2" ∧
    envNoFail.guildExists "g1" = true ∧
    envNoFail.guildExists "g2" = true ∧
    envNoFail.createRejects
        (resolveName { type := CommandType.Slash } "dist/src/commands/ban.js") = false ∧
    (sync envNoFail ["g1", "g2"]
        [("dist/src/commands/ban.js", { type := CommandType.Slash })] initState).2 = none ∧
    (sync envNoFail ["g1", "g2"]
        [("dist/src/commands/ban.js", { type := CommandType.Slash })] initState).1.calls
      = [RemoteCall.fetchGuild "g1",
         RemoteCall.createGuild "g1"
           (registerGuildCommandData
             (resolveName { type := CommandType.Slash } "dist/src/commands/ban.js")
             { type := CommandType.Slash }),
         RemoteCall.fetchGuild "g2",
         RemoteCall.createGuild "g2"
           (registerGuildCommandData
             (resolveName { type := CommandType.Slash } "dist/src/commands/ban.js")
             { type := CommandType.Slash })] :=
  ⟨by decide, by decide, rfl, rfl, rfl,
    ((scoped_fanout_and_abort envNoFail "g1" "g2" "dist/src/commands/ban.js"
        { type := CommandType.Slash } (by decide) (by decide)).1 rfl rfl rfl).1,
    ((scoped_fanout_and_abort envNoFail "g1" "g2" "dist/src/commands/ban.js"
        { type := CommandType.Slash } (by decide) (by decide)).1 rfl rfl rfl).2⟩

/-! ## Invariant lemmas for the global reconciliation loop -/

/-- An edit never changes the remote ids of a registry. -/
theorem ids_editById (cid : Nat) (data : CommandData) (l : List ApplicationCommand) :
    ids (editById cid data l) = ids l := by
  simp only [ids, editById, List.map_map]
  apply List.map_congr_left
  intro e he
  by_cases h : e.id = cid <;> simp [h, editEntry]

/-- An edit whose payload cannot rename the entries carrying the edited
id leaves the registry's name list unchanged. -/
theorem names_editById (cid : Nat) (data : CommandData) (l : List ApplicationCommand)
    (h : ∀ e ∈ l, e.id = cid → data.name.getD e.name = e.name) :
    names (editById cid data l) = names l := by
  simp only [names, editById, List.map_map]
  apply List.map_congr_left
  intro e he
  by_cases hc : e.id = cid
  · have hn := h e he hc
    simp [hc, editEntry, hn]
  · simp [hc]

theorem length_editById (cid : Nat) (data : CommandData) (l : List ApplicationCommand) :
    (editById cid data l).length = l.length := by
  simp [editById]

/-- Function `handleCommand` with an empty scoped-guild list is the global
handler (line 65: JS truthiness of `scopedGuilds.length`). -/
theorem handleCommand_global (env : Env) (s : SyncState) (m : CommandModule) (r : String) :
    handleCommand env [] s m r = handleGlobalCommand env s r m := by
  simp [handleCommand]

/-- One successful `sync` step over a publishable head definition. -/
theorem sync_cons_ok (env : Env) (g : List String) (s : SyncState) (path : String)
    (m : CommandModule) (rest : List (String × CommandModule))
    (hp : publishable m = true)
    (hok : (handleCommand env g s m (resolveName m path)).2 = none) :
    sync env g ((path, m) :: rest) s
      = sync env g rest (handleCommand env g s m (resolveName m path)).1 := by
  rcases h : handleCommand env g s m (resolveName m path) with ⟨s1, e⟩
  rw [h] at hok
  cases e with
  | none => simp [sync, hp, h]
  | some err => simp at hok

/-- Facts about the update branch of the global handler under a
non-rejecting remote: no error, names, length, id counter and id
sanity preserved, one `updated` outcome appended. -/
theorem update_branch_facts (env : Env) (s : SyncState) (path : String) (m : CommandModule)
    (reg : ApplicationCommand)
    (hfind : s.global.find? (fun e => e.name == resolveName m path) = some reg)
    (her : env.editRejects reg.id = false)
    (hids : IdsOk s) :
    (handleGlobalCommand env s (resolveName m path) m).2 = none ∧
    names (handleGlobalCommand env s (resolveName m path) m).1.global = names s.global ∧
    (handleGlobalCommand env s (resolveName m path) m).1.global.length = s.global.length ∧
    (handleGlobalCommand env s (resolveName m path) m).1.outcomes
      = s.outcomes ++ [(resolveName m path, SyncOutcome.updated)] ∧
    (handleGlobalCommand env s (resolveName m path) m).1.nextId = s.nextId ∧
    IdsOk (handleGlobalCommand env s (resolveName m path) m).1 := by
  have hrname : reg.name = resolveName m path := by
    have := List.find?_some hfind
    simpa using this
  have hmem : reg ∈ s.global := List.mem_of_find?_eq_some hfind
  have hkeep : ∀ e ∈ s.global, e.id = reg.id →
      (updateCommandData m).name.getD e.name = e.name := by
    intro e he hid
    have heq : e = reg :=
      List.inj_on_of_nodup_map (by simpa [ids] using hids.1) he hmem hid
    subst heq
    cases hmn : m.name with
    | none => simp [updateCommandData, hmn]
    | some nm =>
      have : resolveName m path = nm := by simp [resolveName, hmn]
      simp [updateCommandData, hmn, hrname, this]
  rw [handleGlobalCommand_update_eq env s (resolveName m path) m reg hfind her]
  refine ⟨rfl, names_editById reg.id (updateCommandData m) s.global hkeep,
    length_editById _ _ _, rfl, rfl, ?_⟩
  constructor
  · simpa [IdsOk, ids_editById] using hids.1
  · intro i hi
    rw [ids_editById] at hi
    exact hids.2 i hi

/-- Facts about the create branch of the global handler under a
non-rejecting remote: no error, the resolved name appended to the
registry's names, one `created` outcome appended, id sanity
preserved. -/
theorem create_branch_facts (env : Env) (s : SyncState) (r : String) (m : CommandModule)
    (hfind : s.global.find? (fun e => e.name == r) = none)
    (hcr : env.createRejects r = false)
    (hids : IdsOk s) :
    (handleGlobalCommand env s r m).2 = none ∧
    names (handleGlobalCommand env s r m).1.global = names s.global ++ [r] ∧
    (handleGlobalCommand env s r m).1.outcomes = s.outcomes ++ [(r, SyncOutcome.created)] ∧
    IdsOk (handleGlobalCommand env s r m).1 := by
  rw [handleGlobalCommand_create_eq env s r m hfind hcr]
  refine ⟨rfl, ?_, rfl, ?_⟩
  · simp [names, createdEntry, registerGlobalCommandData]
  · constructor
    · have hnew : s.nextId ∉ ids s.global := by
        intro hmem
        exact Nat.lt_irrefl _ (hids.2 _ hmem)
      have : ids (s.global ++ [createdEntry s.nextId (registerGlobalCommandData r m)])
          = ids s.global ++ [s.nextId] := by
        simp [ids, createdEntry]
      rw [this]
      exact List.Nodup.append hids.1 (List.nodup_singleton _)
        (fun x hx hy => by
          simp at hy
          subst hy
          exact hnew hx)
    · intro i hi
      simp only [ids, List.map_append] at hi
      rcases List.mem_append.mp hi with h | h
      · exact Nat.lt_succ_of_lt (hids.2 i h)
      · simp [createdEntry] at h
        simp [h]

/-- A name present in a registry is found by the name lookup. -/
theorem find?_name_of_mem (l : List ApplicationCommand) (r : String)
    (h : r ∈ names l) : ∃ reg, l.find? (fun e => e.name == r) = some reg := by
  induction l with
  | nil => simp [names] at h
  | cons e t ih =>
    by_cases he : e.name = r
    · exact ⟨e, List.find?_cons_of_pos _ (by simp [he])⟩
    · have h' : r ∈ names t := by
        simp only [names, List.map_cons, List.mem_cons] at h
        rcases h with h0 | h0
        · exact absurd h0.symm he
        · exact h0
      obtain ⟨reg, hreg⟩ := ih h'
      exact ⟨reg, by rw [List.find?_cons_of_neg _ (by simp [he]), hreg]⟩

/-- First pass of the global loop under a non-rejecting remote: it
never errors, keeps id sanity, never loses a registry name, and ends
with every publishable definition's resolved name present in the
registry. -/
theorem sync_global_run1 (env : Env) (hcr : ∀ n, env.createRejects n = false)
    (her : ∀ i, env.editRejects i = false) :
    ∀ (files : List (String × CommandModule)) (s : SyncState), IdsOk s →
    (sync env [] files s).2 = none ∧
    IdsOk (sync env [] files s).1 ∧
    (∀ n ∈ names s.global, n ∈ names (sync env [] files s).1.global) ∧
    (∀ pm ∈ files, publishable pm.2 = true →
      resolveName pm.2 pm.1 ∈ names (sync env [] files s).1.global) := by
  intro files
  induction files with
  | nil =>
    intro s hids
    exact ⟨rfl, hids, fun n h => h, by intro pm hpm; simp at hpm⟩
  | cons pm rest ih =>
    intro s hids
    obtain ⟨path, m⟩ := pm
    by_cases hp : publishable m
    · cases hfind : s.global.find? (fun e => e.name == resolveName m path) with
      | some reg =>
        obtain ⟨hok, hnames, _, _, _, hids1⟩ :=
          update_branch_facts env s path m reg hfind (her reg.id) hids
        have hstep := sync_cons_ok env [] s path m rest hp
          (by rw [handleCommand_global]; exact hok)
        rw [handleCommand_global] at hstep
        obtain ⟨ih1, ih2, ih3, ih4⟩ :=
          ih (handleGlobalCommand env s (resolveName m path) m).1 hids1
        rw [hstep]
        refine ⟨ih1, ih2, ?_, ?_⟩
        · intro n hn
          exact ih3 n (by rw [hnames]; exact hn)
        · intro pm2 hpm2 hpub2
          rcases List.mem_cons.mp hpm2 with h0 | h0
          · subst h0
            have hr : resolveName m path ∈ names s.global := by
              have hrname : reg.name = resolveName m path := by
                have := List.find?_some hfind
                simpa using this
              have hr2 : reg.name ∈ names s.global := by
                simpa [names] using List.mem_map_of_mem (fun e => e.name)
                  (List.mem_of_find?_eq_some hfind)
              rw [hrname] at hr2
              exact hr2
            exact ih3 _ (by rw [hnames]; exact hr)
          · exact ih4 pm2 h0 hpub2
      | none =>
        obtain ⟨hok, hnames, _, hids1⟩ :=
          create_branch_facts env s (resolveName m path) m hfind (hcr _) hids
        have hstep := sync_cons_ok env [] s path m rest hp
          (by rw [handleCommand_global]; exact hok)
        rw [handleCommand_global] at hstep
        obtain ⟨ih1, ih2, ih3, ih4⟩ :=
          ih (handleGlobalCommand env s (resolveName m path) m).1 hids1
        rw [hstep]
        refine ⟨ih1, ih2, ?_, ?_⟩
        · intro n hn
          exact ih3 n (by rw [hnames]; exact List.mem_append_left _ hn)
        · intro pm2 hpm2 hpub2
          rcases List.mem_cons.mp hpm2 with h0 | h0
          · subst h0
            exact ih3 _ (by rw [hnames]; simp)
          · exact ih4 pm2 h0 hpub2
    · have hstep : sync env [] ((path, m) :: rest) s = sync env [] rest s := by
        simp [sync, hp]
      rw [hstep]
      obtain ⟨ih1, ih2, ih3, ih4⟩ := ih s hids
      refine ⟨ih1, ih2, ih3, ?_⟩
      intro pm2 hpm2 hpub2
      rcases List.mem_cons.mp hpm2 with h0 | h0
      · subst h0
        simp at hpub2
        exact absurd hpub2 (by simpa using hp)
      · exact ih4 pm2 h0 hpub2

/-- Second pass of the global loop under a non-rejecting remote, when
every publishable definition's resolved name is already registered: it
never errors, takes the update branch throughout (one `updated`
outcome per publishable definition, no `created`), and leaves the
registry's size unchanged. -/
theorem sync_global_run2 (env : Env) (hcr : ∀ n, env.createRejects n = false)
    (her : ∀ i, env.editRejects i = false) :
    ∀ (files : List (String × CommandModule)) (s : SyncState), IdsOk s →
    (∀ pm ∈ files, publishable pm.2 = true → resolveName pm.2 pm.1 ∈ names s.global) →
    (sync env [] files s).2 = none ∧
    (sync env [] files s).1.global.length = s.global.length ∧
    ∃ tail, (sync env [] files s).1.outcomes = s.outcomes ++ tail ∧
      (∀ o ∈ tail, o.2 = SyncOutcome.updated) ∧
      tail.length = (files.filter (fun pm => publishable pm.2)).length := by
  intro files
  induction files with
  | nil =>
    intro s hids hall
    exact ⟨rfl, rfl, [], by simp [sync], by intro o ho; simp at ho, by simp [sync]⟩
  | cons pm rest ih =>
    intro s hids hall
    obtain ⟨path, m⟩ := pm
    by_cases hp : publishable m
    · have hr : resolveName m path ∈ names s.global :=
        hall (path, m) (List.mem_cons_self _ _) hp
      obtain ⟨reg, hfind⟩ := find?_name_of_mem s.global (resolveName m path) hr
      obtain ⟨hok, hnames, hlen, houtc, _, hids1⟩ :=
        update_branch_facts env s path m reg hfind (her reg.id) hids
      have hstep := sync_cons_ok env [] s path m rest hp
        (by rw [handleCommand_global]; exact hok)
      rw [handleCommand_global] at hstep
      obtain ⟨ih1, ih2, tail, htail, hupd, htlen⟩ :=
        ih (handleGlobalCommand env s (resolveName m path) m).1 hids1
          (by
            intro pm2 hpm2 hpub2
            rw [hnames]
            exact hall pm2 (List.mem_cons_of_mem _ hpm2) hpub2)
      rw [hstep]
      refine ⟨ih1, by rw [ih2, hlen], (resolveName m path, SyncOutcome.updated) :: tail,
        ?_, ?_, ?_⟩
      · rw [htail, houtc, List.append_assoc]
        rfl
      · intro o ho
        rcases List.mem_cons.mp ho with h0 | h0
        · rw [h0]
        · exact hupd o h0
      · simp [hp, htlen]
    · have hstep : sync env [] ((path, m) :: rest) s = sync env [] rest s := by
        simp [sync, hp]
      rw [hstep]
      obtain ⟨ih1, ih2, tail, htail, hupd, htlen⟩ :=
        ih s hids (by
          intro pm2 hpm2 hpub2
          exact hall pm2 (List.mem_cons_of_mem _ hpm2) hpub2)
      exact ⟨ih1, ih2, tail, htail, hupd, by simp [hp, htlen]⟩

/-- Each invocation of the global handler issues exactly one global
fetch (and never errors under a non-rejecting remote). -/
theorem handleGlobalCommand_noFail (env : Env) (s : SyncState) (r : String) (m : CommandModule)
    (hcr : ∀ n, env.createRejects n = false) (her : ∀ i, env.editRejects i = false) :
    (handleGlobalCommand env s r m).2 = none ∧
    globalFetchCount (handleGlobalCommand env s r m).1 = globalFetchCount s + 1 := by
  cases hfind : s.global.find? (fun e => e.name == r) with
  | some reg =>
    rw [handleGlobalCommand_update_eq env s r m reg hfind (her reg.id)]
    simp [globalFetchCount, isFetchGlobal]
  | none =>
    rw [handleGlobalCommand_create_eq env s r m hfind (hcr r)]
    simp [globalFetchCount, isFetchGlobal]

/-- C1 counterexample: one failure-free global pass over two
publishable definitions issues two global fetch calls — one per
definition, the second after the first create, i.e. the remote is
re-queried mid-target — refuting "fetched exactly once per
reconciliation of that target". -/
theorem fetch_reissued_per_definition_cx :
    globalFetchCount (sync envNoFail [] filesAB initState).1 = 2 ∧
    (sync envNoFail [] filesAB initState).1.calls
      = [RemoteCall.fetchGlobal,
         RemoteCall.createGlobal
           { name := some "a", description := some "..",
             type := ApplicationCommandType.ChatInput, options := some [] },
         RemoteCall.fetchGlobal,
         RemoteCall.createGlobal
           { name := some "b", description := some "..",
             type := ApplicationCommandType.ChatInput, options := some [] }] ∧
    (2 : Nat) ≠ 1 := by
  refine ⟨by decide, by decide, by decide⟩

/-- C1 amended: the remote's full entry set is fetched once per
publishable definition, not once per target: the fetch happens inside
the per-definition handler, so a failure-free global pass issues
exactly as many global fetch calls as there are publishable
definitions in the file list. -/
theorem sync_fetches_once_per_definition (env : Env)
    (hcr : ∀ n, env.createRejects n = false) (her : ∀ i, env.editRejects i = false) :
    ∀ (files : List (String × CommandModule)) (s : SyncState),
    (sync env [] files s).2 = none ∧
    globalFetchCount (sync env [] files s).1
      = globalFetchCount s + (files.filter (fun pm => publishable pm.2)).length := by
  intro files
  induction files with
  | nil => intro s; exact ⟨rfl, by simp [sync]⟩
  | cons pm rest ih =>
    intro s
    obtain ⟨path, m⟩ := pm
    by_cases hp : publishable m
    · obtain ⟨hok, hcount⟩ := handleGlobalCommand_noFail env s (resolveName m path) m hcr her
      have hstep := sync_cons_ok env [] s path m rest hp
        (by rw [handleCommand_global]; exact hok)
      rw [handleCommand_global] at hstep
      rw [hstep]
      obtain ⟨ih1, ih2⟩ := ih (handleGlobalCommand env s (resolveName m path) m).1
      refine ⟨ih1, ?_⟩
      rw [ih2, hcount]
      simp [hp]
      omega
    · have hstep : sync env [] ((path, m) :: rest) s = sync env [] rest s := by
        simp [sync, hp]
      rw [hstep]
      obtain ⟨ih1, ih2⟩ := ih s
      exact ⟨ih1, by rw [ih2]; simp [hp]⟩

theorem sync_fetches_once_per_definition_witness :
    (∀ n, envNoFail.createRejects n = false) ∧
    (∀ i, envNoFail.editRejects i = false) ∧
    ((sync envNoFail [] filesAB initState).2 = none ∧
     globalFetchCount (sync envNoFail [] filesAB initState).1
       = globalFetchCount initState + (filesAB.filter (fun pm => publishable pm.2)).length) :=
  ⟨fun _ => rfl, fun _ => rfl,
    sync_fetches_once_per_definition envNoFail (fun _ => rfl) (fun _ => rfl) filesAB initState⟩

/-- C8: reconciliation is idempotent in global scope.  Starting from an
empty remote, running the pass twice with unchanged definitions and no
external remote mutation (the second run starts exactly from the first
run's final state) yields, on the second run, an `updated` (never
`created`) outcome for every publishable definition — one outcome per
publishable file — and leaves the number of remote entries exactly as
it was after the first run.  The hypotheses say the remote rejects
nothing. -/
theorem reconcile_idempotent (env : Env) (files : List (String × CommandModule))
    (hcr : ∀ n, env.createRejects n = false) (her : ∀ i, env.editRejects i = false) :
    (sync env [] files (sync env [] files initState).1).2 = none ∧
    (sync env [] files (sync env [] files initState).1).1.global.length
      = (sync env [] files initState).1.global.length ∧
    ∃ tail,
      (sync env [] files (sync env [] files initState).1).1.outcomes
        = (sync env [] files initState).1.outcomes ++ tail ∧
      (∀ o ∈ tail, o.2 = SyncOutcome.updated) ∧
      tail.length = (files.filter (fun pm => publishable pm.2)).length := by
  have hids0 : IdsOk initState :=
    ⟨by simp [ids, initState], by intro i hi; simp [ids, initState] at hi⟩
  obtain ⟨h1, hids1, hmono, hallnames⟩ := sync_global_run1 env hcr her files initState hids0
  exact sync_global_run2 env hcr her files (sync env [] files initState).1 hids1 hallnames

theorem reconcile_idempotent_witness :
    (∀ n, envNoFail.createRejects n = false) ∧
    (∀ i, envNoFail.editRejects i = false) ∧
    ((sync envNoFail [] filesPing (sync envNoFail [] filesPing initState).1).2 = none ∧
     (sync envNoFail [] filesPing (sync envNoFail [] filesPing initState).1).1.global.length
       = (sync envNoFail [] filesPing initState).1.global.length ∧
     ∃ tail,
       (sync envNoFail [] filesPing (sync envNoFail [] filesPing initState).1).1.outcomes
         = (sync envNoFail [] filesPing initState).1.outcomes ++ tail ∧
       (∀ o ∈ tail, o.2 = SyncOutcome.updated) ∧
       tail.length = (filesPing.filter (fun pm => publishable pm.2)).length) :=
  ⟨fun _ => rfl, fun _ => rfl,
    reconcile_idempotent envNoFail filesPing (fun _ => rfl) (fun _ => rfl)⟩
